import Mathlib

/-!
Verification development for the `qwk` command-line tool (Rust sources:
`src/cli.rs`, `src/config.rs`, `src/completion.rs`, `src/utils.rs`).

Rust strings are modelled as Lean `String` (a structure holding a `List Char`);
where the code counts or slices UTF-8 bytes (`truncate_prompt`), the model
counts bytes via `Char.utf8Size` and models the slice panic.  The alias map (a Rust
`HashMap<String, String>`) is modelled as an association list recording one
iteration order; file-system state is modelled as the contents of the three
files the tool touches.  Process spawning and exits are modelled by returning a
`DispatchResult` value instead of performing the effect.
-/

namespace Qwk

/-- Character constants, named to keep the development readable. -/
def quoteChar : Char := Char.ofNat 34

/-- Single-quote character (ASCII 39). -/
def squoteChar : Char := Char.ofNat 39

/-- Backslash character (ASCII 92). -/
def backslashChar : Char := Char.ofNat 92

/-- Left curly-brace character (ASCII 123). -/
def lbraceChar : Char := Char.ofNat 123

/-- Right curly-brace character (ASCII 125). -/
def rbraceChar : Char := Char.ofNat 125

/-- Boolean string test mirroring Rust `str::starts_with` with a string pattern. -/
def rsStartsWith (s pat : String) : Bool := pat.data.isPrefixOf s.data

/-- Boolean emptiness test mirroring Rust `str::is_empty`. -/
def rsIsEmpty (s : String) : Bool := s.data.isEmpty

/-- Lexicographic order on character lists.  Rust compares `String`s by their
UTF-8 bytes; byte-lexicographic order coincides with this codepoint-wise
lexicographic order, because UTF-8 encoding preserves codepoint order. -/
def lexLe : List Char → List Char → Bool
  | [], _ => true
  | _ :: _, [] => false
  | a :: as, b :: bs => if a < b then true else if a = b then lexLe as bs else false

/-- The `Ord`-ascending comparison used by Rust `Vec::<String>::sort`. -/
def rsLe (a b : String) : Bool := lexLe a.data b.data

/-- Model of `Iterator::position` from `args.iter().position(|arg| arg == "--")`
in `cli.rs`: index of the first element satisfying the predicate. -/
def position (p : String → Bool) : List String → Option Nat
  | [] => none
  | a :: l => if p a then some 0 else (position p l).map (fun n => n + 1)

/-- Tokenizer mode of the shell-like splitter: outside quotes, inside single
quotes, or inside double quotes. -/
inductive ShlexMode where
  | normal
  | single
  | double
  deriving DecidableEq

/-- One finished token flushed onto the accumulator (tokens are built reversed). -/
def shlexFinish (cur : Option (List Char)) (acc : List (List Char)) : List (List Char) :=
  match cur with
  | none => acc
  | some t => t.reverse :: acc

/-- Modelled from the spec: the quoted-string tokenizer (spec section 4.1) is the
external `shlex` crate, which is not part of this repository's sources.  Tokens
are separated by whitespace; single- or double-quoted substrings join the
current token with the quotes stripped; a backslash escapes the next character
outside single quotes; an unterminated quote or a trailing backslash makes the
whole tokenization fail (`none`). -/
def shlexChars : ShlexMode → List Char → Option (List Char) → List (List Char) →
    Option (List (List Char))
  | .normal, [], cur, acc => some (shlexFinish cur acc).reverse
  | .normal, c :: rest, cur, acc =>
    if c.isWhitespace then shlexChars .normal rest none (shlexFinish cur acc)
    else if c = squoteChar then shlexChars .single rest (some (cur.getD [])) acc
    else if c = quoteChar then shlexChars .double rest (some (cur.getD [])) acc
    else if c = backslashChar then
      match rest with
      | [] => none
      | e :: rest2 => shlexChars .normal rest2 (some (e :: cur.getD [])) acc
    else shlexChars .normal rest (some (c :: cur.getD [])) acc
  | .single, [], _, _ => none
  | .single, c :: rest, cur, acc =>
    if c = squoteChar then shlexChars .normal rest (some (cur.getD [])) acc
    else shlexChars .single rest (some (c :: cur.getD [])) acc
  | .double, [], _, _ => none
  | .double, c :: rest, cur, acc =>
    if c = quoteChar then shlexChars .normal rest (some (cur.getD [])) acc
    else if c = backslashChar then
      match rest with
      | [] => none
      | e :: rest2 => shlexChars .double rest2 (some (e :: cur.getD [])) acc
    else shlexChars .double rest (some (c :: cur.getD [])) acc

/-- Model of `shlex::split`: tokenize the whole string, `none` on failure. -/
def shlexSplit (s : String) : Option (List String) :=
  (shlexChars .normal s.data none []).map (fun ts => ts.map String.mk)

/-- Embedding of `parse_agent_command` (`utils.rs` lines 3-12): split the agent
setting; a nonempty token list gives program plus default args, anything else
falls back to the raw string with no args. -/
def parse_agent_command (agent_str : String) : String × List String :=
  match shlexSplit agent_str with
  | some (command :: args) => (command, args)
  | _ => (agent_str, [])

/-- Unicode White_Space test mirroring Rust `char::is_whitespace` (the
White_Space property): U+0009-U+000D, U+0020, U+0085, U+00A0, U+1680,
U+2000-U+200A, U+2028, U+2029, U+202F, U+205F and U+3000. -/
def rustIsWhitespace (c : Char) : Bool :=
  (9 ≤ c.toNat && c.toNat ≤ 13) || c.toNat = 32 || c.toNat = 133 || c.toNat = 160 ||
    c.toNat = 5760 || (8192 ≤ c.toNat && c.toNat ≤ 8202) || c.toNat = 8232 ||
    c.toNat = 8233 || c.toNat = 8239 || c.toNat = 8287 || c.toNat = 12288

/-- UTF-8 byte length of a character sequence; `Rust str::len` counts these
bytes. -/
def utf8Len (s : List Char) : Nat := (s.map Char.utf8Size).sum

/-- Byte-indexed prefix `&s[..k]` of Rust string slicing: the characters making
up the first `k` UTF-8 bytes, or `none` when `k` overruns the string or falls
inside a multibyte character — Rust panics in both situations. -/
def byteTake : Nat → List Char → Option (List Char)
  | 0, _ => some []
  | _ + 1, [] => none
  | k + 1, c :: cs =>
    if c.utf8Size ≤ k + 1 then
      match byteTake (k + 1 - c.utf8Size) cs with
      | some pre => some (c :: pre)
      | none => none
    else none

/-- Whitespace collapsing from `truncate_prompt` (`utils.rs` lines 16-20):
replace each newline by a space, then split on Unicode whitespace
(`str::split_whitespace`) and rejoin the nonempty words with single spaces. -/
def collapseWhitespace (s : List Char) : List Char :=
  let replaced := s.map (fun c => if c = '\n' then ' ' else c)
  (((replaced.splitOnP rustIsWhitespace).filter (fun w => w ≠ [])).intersperse
    [' ']).flatten

/-- Embedding of `truncate_prompt` (`utils.rs` lines 14-27) at UTF-8 byte
level: `cleaned.len()` counts bytes and `&cleaned[..k]` is a byte slice, so
`none` models the Rust panic when `max_length - 3` lands inside a multibyte
character.  Rust `usize` `saturating_sub` coincides with `Nat` subtraction. -/
def truncate_prompt (prompt : String) (max_length : Nat) : Option String :=
  let cleaned := collapseWhitespace prompt.data
  if utf8Len cleaned ≤ max_length then some (String.mk cleaned)
  else
    match byteTake (max_length - 3) cleaned with
    | some pre => some (String.mk (pre ++ ['.', '.', '.']))
    | none => none

/-- Fixed reserved long-flag names offered by completion
(`completion.rs` lines 20-28). -/
def completionCommands : List String :=
  ["--set", "--agent", "--list", "--remove", "--reset", "--setup-completion", "--help"]

/-- Embedding of `generate_completions` (`completion.rs` lines 15-50), with the
alias keys (one `HashMap` iteration order) passed in place of `load_aliases()`.
Rust `Vec::sort` is a stable ascending sort; since equal strings are
indistinguishable, `insertionSort` produces the same list. -/
def generate_completions (aliasKeys : List String) (q : Option String) : List String :=
  let completions := aliasKeys ++ completionCommands
  let completions :=
    match q with
    | some qs =>
      if rsIsEmpty qs then completions else completions.filter (fun c => rsStartsWith c qs)
    | none => completions
  completions.insertionSort (fun a b => rsLe a b = true)

/-- Outcome of `execute_shortcut` (`cli.rs` lines 106-154).  `spawn` carries the
program and full argument vector handed to `Command` (the tool then exits with
the child's code); `usageError` and `notFound` print to stderr and exit 1. -/
inductive DispatchResult where
  | spawn (prog : String) (argv : List String)
  | usageError (shortcut : String)
  | notFound (shortcut : String)
  deriving DecidableEq

/-- Exit code of the tool itself for each dispatch outcome: `none` when a child
is spawned (the child's code is propagated), `some 1` on the two error paths. -/
def dispatchExitCode : DispatchResult → Option Nat
  | .spawn _ _ => none
  | .usageError _ => some 1
  | .notFound _ => some 1

/-- Whether a dispatch outcome spawns the agent child process. -/
def spawnsChild : DispatchResult → Bool
  | .spawn _ _ => true
  | _ => false

/-- Embedding of `execute_shortcut` (`cli.rs` lines 106-154).  `args` is the
full process argv (element 0 is the program path), `aliases` the loaded alias
map and `agent_str` the agent setting; both stores are read-only here. -/
def execute_shortcut (shortcut : String) (args : List String)
    (aliases : List (String × String)) (agent_str : String) : DispatchResult :=
  match aliases.lookup shortcut with
  | none => .notFound shortcut
  | some prompt =>
    let pac := parse_agent_command agent_str
    if 2 < args.length then
      match position (fun a => a == "--") args with
      | some i => .spawn pac.1 (pac.2 ++ args.drop (i + 1) ++ [prompt])
      | none => .usageError shortcut
    else .spawn pac.1 (pac.2 ++ [prompt])

/-- Lower-case hexadecimal digit, as used by serde_json when escaping control
characters. -/
def jsonHexDigit (n : Nat) : Char :=
  if n < 10 then Char.ofNat (48 + n) else Char.ofNat (87 + n)

/-- Modelled from the spec: JSON string escaping as performed by the external
serde_json crate (spec 4.2 says `save` serializes to the structured JSON
format).  serde_json escapes the double quote, the backslash, and every control
character below 0x20 (named escapes for backspace, tab, newline, form feed,
carriage return, `\u00XX` for the rest); all other characters pass through. -/
def escCharJson (c : Char) : List Char :=
  if c = quoteChar then [backslashChar, quoteChar]
  else if c = backslashChar then [backslashChar, backslashChar]
  else if c = '\n' then [backslashChar, 'n']
  else if c = '\r' then [backslashChar, 'r']
  else if c = '\t' then [backslashChar, 't']
  else if c.toNat = 8 then [backslashChar, 'b']
  else if c.toNat = 12 then [backslashChar, 'f']
  else if c.toNat < 32 then
    [backslashChar, 'u', '0', '0', jsonHexDigit (c.toNat / 16), jsonHexDigit (c.toNat % 16)]
  else [c]

/-- Escaped JSON string literal: opening quote, escaped body, closing quote. -/
def escStringJson (s : List Char) : List Char :=
  quoteChar :: ((s.map escCharJson).flatten ++ [quoteChar])

/-- Numeric value of one hexadecimal digit character (JSON accepts both cases). -/
def hexVal (c : Char) : Option Nat :=
  if 48 ≤ c.toNat ∧ c.toNat ≤ 57 then some (c.toNat - 48)
  else if 97 ≤ c.toNat ∧ c.toNat ≤ 102 then some (c.toNat - 87)
  else if 65 ≤ c.toNat ∧ c.toNat ≤ 70 then some (c.toNat - 55)
  else none

/-- Single-character JSON escapes accepted after a backslash. -/
def simpleUnesc (c : Char) : Option Char :=
  if c = quoteChar then some quoteChar
  else if c = backslashChar then some backslashChar
  else if c = '/' then some '/'
  else if c = 'n' then some '\n'
  else if c = 'r' then some '\r'
  else if c = 't' then some '\t'
  else if c = 'b' then some (Char.ofNat 8)
  else if c = 'f' then some (Char.ofNat 12)
  else none

/-- Modelled from the spec: serde_json's parser for a JSON string body.  The
input starts right after the opening quote; on success the decoded body and the
text after the closing quote are returned.  Raw control characters and
malformed escapes are rejected, as serde_json rejects them. -/
def parseJsonString : List Char → Option (List Char × List Char)
  | [] => none
  | c :: rest =>
    if c = quoteChar then some ([], rest)
    else if c = backslashChar then
      match rest with
      | [] => none
      | e :: rest2 =>
        if e = 'u' then
          match rest2 with
          | a :: b :: c2 :: d :: rest3 =>
            match hexVal a, hexVal b, hexVal c2, hexVal d with
            | some va, some vb, some vc, some vd =>
              match parseJsonString rest3 with
              | some (s, r) => some (Char.ofNat (4096 * va + 256 * vb + 16 * vc + vd) :: s, r)
              | none => none
            | _, _, _, _ => none
          | _ => none
        else
          match simpleUnesc e with
          | some ch =>
            match parseJsonString rest2 with
            | some (s, r) => some (ch :: s, r)
            | none => none
          | none => none
    else if c.toNat < 32 then none
    else
      match parseJsonString rest with
      | some (s, r) => some (c :: s, r)
      | none => none

/-- One pretty-printed object entry: two-space indent, escaped key, colon,
space, escaped value. -/
def entryJson (e : String × String) : List Char :=
  [' ', ' '] ++ escStringJson e.1.data ++ [':', ' '] ++ escStringJson e.2.data

/-- Pretty-printed entry lines joined by a comma and a newline. -/
def entriesJson : List (String × String) → List Char
  | [] => []
  | [e] => entryJson e
  | e :: es => entryJson e ++ [',', '\n'] ++ entriesJson es

/-- Modelled from the spec: serde_json `to_string_pretty` for a string-to-string
map, with entries in the iteration order of the given list.  The empty map
prints as a bare brace pair; otherwise each entry sits on its own two-space
indented line. -/
def to_string_pretty (m : List (String × String)) : String :=
  match m with
  | [] => String.mk [lbraceChar, rbraceChar]
  | _ => String.mk (lbraceChar :: '\n' :: (entriesJson m ++ ['\n', rbraceChar]))

/-- JSON insignificant whitespace. -/
def jsonWs (c : Char) : Bool := c = ' ' || c = '\t' || c = '\n' || c = '\r'

/-- Drop leading JSON whitespace. -/
def skipWs (l : List Char) : List Char := l.dropWhile jsonWs

/-- Parser for the entry list of a JSON object of strings (fuel bounds the
number of entries; callers pass at least the text length). -/
def parseEntries : Nat → List Char → Option (List (String × String) × List Char)
  | 0, _ => none
  | fuel + 1, text =>
    match skipWs text with
    | [] => none
    | c :: r1 =>
      if c = quoteChar then
        match parseJsonString r1 with
        | none => none
        | some (k, r2) =>
          match skipWs r2 with
          | [] => none
          | c2 :: r3 =>
            if c2 = ':' then
              match skipWs r3 with
              | [] => none
              | c3 :: r4 =>
                if c3 = quoteChar then
                  match parseJsonString r4 with
                  | none => none
                  | some (v, r5) =>
                    match skipWs r5 with
                    | [] => none
                    | c4 :: r6 =>
                      if c4 = ',' then
                        match parseEntries fuel r6 with
                        | some (es, r7) => some ((String.mk k, String.mk v) :: es, r7)
                        | none => none
                      else if c4 = rbraceChar then some ([(String.mk k, String.mk v)], r6)
                      else none
                else none
            else none
      else none

/-- Parser for a whole JSON object of strings, returning the entries in file
order together with the remaining text. -/
def parseTopObject (text : List Char) : Option (List (String × String) × List Char) :=
  match skipWs text with
  | [] => none
  | c :: r =>
    if c = lbraceChar then
      match skipWs r with
      | [] => none
      | c2 :: r2 => if c2 = rbraceChar then some ([], r2) else parseEntries (r.length + 1) r
    else none

/-- Modelled from the spec: serde_json `from_str` deserializing a string map —
parse one object and require that only whitespace follows it. -/
def from_str (content : String) : Option (List (String × String)) :=
  match parseTopObject content.data with
  | some (m, rest) => if skipWs rest = [] then some m else none
  | none => none

/-- Contents of the three persisted files of the tool (`none` = file absent):
the alias file, the agent-setting file, and the most recent backup snapshot. -/
structure ConfigState where
  aliasesFile : Option String
  agentFile : Option String
  backupFile : Option String
  deriving DecidableEq

/-- Embedding of `load_aliases` (`config.rs` lines 28-36): read the alias file
if it exists and parse it, substituting the empty map on absence or parse
failure. -/
def load_aliases (s : ConfigState) : List (String × String) :=
  match s.aliasesFile with
  | some content => (from_str content).getD []
  | none => []

/-- Embedding of `save_aliases` (`config.rs` lines 38-43): overwrite the alias
file with the pretty-printed serialization. -/
def save_aliases (s : ConfigState) (m : List (String × String)) : ConfigState :=
  { s with aliasesFile := some (to_string_pretty m) }

/-- Rust `str::trim`: drop whitespace from both ends. -/
def rsTrim (s : String) : String :=
  String.mk (((s.data.dropWhile Char.isWhitespace).reverse.dropWhile Char.isWhitespace).reverse)

/-- Embedding of `get_agent` (`config.rs` lines 45-55): the trimmed agent-file
contents, defaulting to the literal `claude` when the file is absent. -/
def get_agent (s : ConfigState) : String :=
  match s.agentFile with
  | some content => rsTrim content
  | none => "claude"

/-- Embedding of `create_aliases_backup` (`config.rs` lines 63-75): when the
alias file exists, copy its contents to a timestamped backup and report it;
otherwise report that no backup was made.  The timestamped name is external
(clock) and is not modelled; the snapshot contents are. -/
def create_aliases_backup (s : ConfigState) : ConfigState × Option String :=
  match s.aliasesFile with
  | none => (s, none)
  | some content => ({ s with backupFile := some content }, some content)

/-- User-visible message of the Remove handler. -/
inductive RemoveMessage where
  | removedOk (aliasName : String)
  | doesNotExist (aliasName : String)
  deriving DecidableEq

/-- Embedding of the `Commands::Remove` handler (`cli.rs` lines 222-234):
load, remove the key if present and save, otherwise leave everything alone;
both branches finish with exit code 0 (the save I/O error path is out of scope
of this model). -/
def removeCommand (s : ConfigState) (aliasName : String) : ConfigState × RemoveMessage × Nat :=
  let aliases := load_aliases s
  if (aliases.lookup aliasName).isSome then
    (save_aliases s (aliases.filter (fun e => e.1 ≠ aliasName)), .removedOk aliasName, 0)
  else (s, .doesNotExist aliasName, 0)

/-- Embedding of the `Commands::Reset` handler (`cli.rs` lines 236-264): when
confirmation is refused nothing happens; otherwise back up the alias file (when
it exists) and then delete the alias file (when it exists). -/
def resetCommand (s : ConfigState) (confirmed : Bool) : ConfigState :=
  if !confirmed then s
  else
    let s1 := (create_aliases_backup s).1
    if s1.aliasesFile.isSome then { s1 with aliasesFile := none } else s1

/-- Outcome of `run` (`cli.rs` lines 156-171): either the direct-shortcut path
ran (and the process exited inside `execute_shortcut`), or the argv was handed
to the structured `clap` parser. -/
inductive RunOutcome where
  | dispatched (r : DispatchResult)
  | structured (args : List String)
  deriving DecidableEq

/-- Embedding of the dispatch decision in `run` (`cli.rs` lines 164-171): with
at least two argv entries whose second does not start with `--`, the first
argument is treated as a shortcut name; otherwise control passes to `clap`. -/
def run (args : List String) (aliases : List (String × String)) (agent_str : String) :
    RunOutcome :=
  match args with
  | a0 :: a1 :: rest =>
    if rsStartsWith a1 "--" then .structured args
    else .dispatched (execute_shortcut a1 (a0 :: a1 :: rest) aliases agent_str)
  | _ => .structured args

/-! ## Helper lemmas -/

theorem position_eq_none (p : String → Bool) (l : List String)
    (h : ∀ a ∈ l, p a = false) : position p l = none := by
  induction l with
  | nil => rfl
  | cons a l ih =>
    have ha : p a = false := h a (List.mem_cons_self a l)
    simp [position, ha, ih (fun x hx => h x (List.mem_cons_of_mem a hx))]

theorem position_append (p : String → Bool) (xs : List String) (a : String) (ys : List String)
    (hxs : ∀ x ∈ xs, p x = false) (ha : p a = true) :
    position p (xs ++ a :: ys) = some xs.length := by
  induction xs with
  | nil => simp [position, ha]
  | cons x xs ih =>
    have hx : p x = false := hxs x (List.mem_cons_self x xs)
    simp [position, hx, ih (fun y hy => hxs y (List.mem_cons_of_mem x hy))]

theorem drop_append_cons (xs : List String) (a : String) (ys : List String) :
    (xs ++ a :: ys).drop (xs.length + 1) = ys := by
  induction xs with
  | nil => simp
  | cons x xs ih => simp [ih]

theorem lexLe_total : ∀ a b : List Char, lexLe a b = true ∨ lexLe b a = true
  | [], _ => Or.inl rfl
  | _ :: _, [] => Or.inr rfl
  | a :: as, b :: bs => by
    rcases lt_trichotomy a b with h | h | h
    · left
      simp [lexLe, h]
    · subst h
      rcases lexLe_total as bs with ih | ih
      · left
        simp [lexLe, ih]
      · right
        simp [lexLe, ih]
    · right
      simp [lexLe, h]

theorem lexLe_trans : ∀ a b c : List Char,
    lexLe a b = true → lexLe b c = true → lexLe a c = true
  | [], _, _, _, _ => rfl
  | _ :: _, [], _, h, _ => by simp [lexLe] at h
  | _ :: _, _ :: _, [], _, h2 => by simp [lexLe] at h2
  | a :: as, b :: bs, c :: cs, h1, h2 => by
    simp only [lexLe] at h1 h2 ⊢
    by_cases hab : a < b
    · by_cases hbc : b < c
      · simp [lt_trans hab hbc]
      · rw [if_neg hbc] at h2
        by_cases hbc2 : b = c
        · subst hbc2
          simp [hab]
        · rw [if_neg hbc2] at h2
          exact absurd h2 (by simp)
    · rw [if_neg hab] at h1
      by_cases hab2 : a = b
      · subst hab2
        rw [if_pos rfl] at h1
        by_cases hac : a < c
        · simp [hac]
        · rw [if_neg hac] at h2
          by_cases hac2 : a = c
          · subst hac2
            rw [if_pos rfl] at h2
            simp [hac, lexLe_trans as bs cs h1 h2]
          · rw [if_neg hac2] at h2
            exact absurd h2 (by simp)
      · rw [if_neg hab2] at h1
        exact absurd h1 (by simp)

instance : IsTotal String (fun a b => rsLe a b = true) :=
  ⟨fun a b => lexLe_total a.data b.data⟩

instance : IsTrans String (fun a b => rsLe a b = true) :=
  ⟨fun a b c => lexLe_trans a.data b.data c.data⟩

/-- Shared spine of C1 and C9: a known shortcut whose argv contains a `--`
separator (with neither the program path, the shortcut name, nor any earlier
token equal to `--`) spawns the agent on the default args, then the tokens
after the separator, then the prompt. -/
theorem execute_shortcut_spawn_of_sep (a0 name agent_str prompt : String)
    (pre post : List String) (aliases : List (String × String))
    (hname : aliases.lookup name = some prompt)
    (ha0 : a0 ≠ "--") (hnm : name ≠ "--") (hpre : "--" ∉ pre) :
    execute_shortcut name (a0 :: name :: (pre ++ "--" :: post)) aliases agent_str =
      .spawn (parse_agent_command agent_str).1
        ((parse_agent_command agent_str).2 ++ post ++ [prompt]) := by
  have hsplit : a0 :: name :: (pre ++ "--" :: post) = (a0 :: name :: pre) ++ "--" :: post := by
    simp
  have hxs : ∀ x ∈ a0 :: name :: pre, (x == "--") = false := by
    intro x hx
    rcases List.mem_cons.mp hx with rfl | hx
    · simpa using ha0
    rcases List.mem_cons.mp hx with rfl | hx
    · simpa using hnm
    · simp only [beq_eq_false_iff_ne, ne_eq]
      exact fun h => hpre (h ▸ hx)
  have hlen2 : (a0 :: name :: pre).length = pre.length + 2 := by
    simp only [List.length_cons]
  have hpos : position (fun a => a == "--") (a0 :: name :: (pre ++ "--" :: post)) =
      some (pre.length + 2) := by
    rw [hsplit, position_append _ _ _ _ hxs (by simp), hlen2]
  have hdrop : (a0 :: name :: (pre ++ "--" :: post)).drop (pre.length + 2 + 1) = post := by
    have h := drop_append_cons (a0 :: name :: pre) "--" post
    rw [hlen2] at h
    rw [hsplit]
    exact h
  have hlen : 2 < (a0 :: name :: (pre ++ "--" :: post)).length := by
    simp
  simp [execute_shortcut, hname, hlen, hpos, hdrop]

/-! ## JSON round-trip lemmas -/

theorem stringMkData (s : String) : String.mk s.data = s := rfl

theorem jsonWs_nl : jsonWs '\n' = true := by decide

theorem jsonWs_space : jsonWs ' ' = true := by decide

theorem jsonWs_quote : jsonWs quoteChar = false := by decide

theorem jsonWs_colon : jsonWs ':' = false := by decide

theorem jsonWs_comma : jsonWs ',' = false := by decide

theorem jsonWs_rbrace : jsonWs rbraceChar = false := by decide

theorem jsonWs_lbrace : jsonWs lbraceChar = false := by decide

theorem parseJsonString_quote (rest : List Char) :
    parseJsonString (quoteChar :: rest) = some ([], rest) := by
  rw [parseJsonString.eq_def]
  simp

theorem parseJsonString_plain (c : Char) (t : List Char)
    (h1 : c ≠ quoteChar) (h2 : c ≠ backslashChar) (h3 : ¬ c.toNat < 32) :
    parseJsonString (c :: t) =
      match parseJsonString t with
      | some (s, r) => some (c :: s, r)
      | none => none := by
  conv_lhs => rw [parseJsonString.eq_def]
  simp [h1, h2, h3]

theorem parseJsonString_simpleEsc (e ch : Char) (t : List Char)
    (hu : e ≠ 'u') (hch : simpleUnesc e = some ch) :
    parseJsonString (backslashChar :: e :: t) =
      match parseJsonString t with
      | some (s, r) => some (ch :: s, r)
      | none => none := by
  have hbq : backslashChar ≠ quoteChar := by decide
  conv_lhs => rw [parseJsonString.eq_def]
  simp [hbq, hu, hch]

theorem parseJsonString_uEsc (a b c2 d : Char) (va vb vc vd : Nat) (t : List Char)
    (ha : hexVal a = some va) (hb : hexVal b = some vb)
    (hc : hexVal c2 = some vc) (hd : hexVal d = some vd) :
    parseJsonString (backslashChar :: 'u' :: a :: b :: c2 :: d :: t) =
      match parseJsonString t with
      | some (s, r) => some (Char.ofNat (4096 * va + 256 * vb + 16 * vc + vd) :: s, r)
      | none => none := by
  have hbq : backslashChar ≠ quoteChar := by decide
  conv_lhs => rw [parseJsonString.eq_def]
  simp [hbq, ha, hb, hc, hd]

theorem hexVal_jsonHexDigit (n : Nat) (h : n < 16) : hexVal (jsonHexDigit n) = some n := by
  interval_cases n <;> decide

theorem parseJsonString_escChar (c : Char) (t : List Char) :
    parseJsonString (escCharJson c ++ t) =
      match parseJsonString t with
      | some (s, r) => some (c :: s, r)
      | none => none := by
  by_cases h1 : c = quoteChar
  · subst h1
    exact parseJsonString_simpleEsc quoteChar quoteChar t (by decide) (by decide)
  by_cases h2 : c = backslashChar
  · subst h2
    exact parseJsonString_simpleEsc backslashChar backslashChar t (by decide) (by decide)
  by_cases h3 : c = '\n'
  · subst h3
    exact parseJsonString_simpleEsc 'n' '\n' t (by decide) (by decide)
  by_cases h4 : c = '\r'
  · subst h4
    exact parseJsonString_simpleEsc 'r' '\r' t (by decide) (by decide)
  by_cases h5 : c = '\t'
  · subst h5
    exact parseJsonString_simpleEsc 't' '\t' t (by decide) (by decide)
  by_cases h6 : c.toNat = 8
  · have hc : c = Char.ofNat 8 := by
      rw [← h6, Char.ofNat_toNat]
    subst hc
    exact parseJsonString_simpleEsc 'b' (Char.ofNat 8) t (by decide) (by decide)
  by_cases h7 : c.toNat = 12
  · have hc : c = Char.ofNat 12 := by
      rw [← h7, Char.ofNat_toNat]
    subst hc
    exact parseJsonString_simpleEsc 'f' (Char.ofNat 12) t (by decide) (by decide)
  by_cases h8 : c.toNat < 32
  · have hesc : escCharJson c =
        [backslashChar, 'u', '0', '0', jsonHexDigit (c.toNat / 16), jsonHexDigit (c.toNat % 16)] := by
      simp [escCharJson, h1, h2, h3, h4, h5, h6, h7, h8]
    rw [hesc]
    show parseJsonString
        (backslashChar :: 'u' :: '0' :: '0' :: jsonHexDigit (c.toNat / 16) ::
          jsonHexDigit (c.toNat % 16) :: t) = _
    rw [parseJsonString_uEsc '0' '0' (jsonHexDigit (c.toNat / 16)) (jsonHexDigit (c.toNat % 16))
      0 0 (c.toNat / 16) (c.toNat % 16) t (by decide) (by decide)
      (hexVal_jsonHexDigit _ (by omega)) (hexVal_jsonHexDigit _ (Nat.mod_lt _ (by omega)))]
    have hval : 4096 * 0 + 256 * 0 + 16 * (c.toNat / 16) + c.toNat % 16 = c.toNat := by
      have := Nat.div_add_mod c.toNat 16
      omega
    rw [hval, Char.ofNat_toNat]
  · have hesc : escCharJson c = [c] := by
      simp [escCharJson, h1, h2, h3, h4, h5, h6, h7, h8]
    rw [hesc]
    exact parseJsonString_plain c t h1 h2 h8

theorem parseJsonString_roundtrip : ∀ (s rest : List Char),
    parseJsonString ((s.map escCharJson).flatten ++ (quoteChar :: rest)) = some (s, rest)
  | [], rest => by
    simpa using parseJsonString_quote rest
  | c :: s, rest => by
    have ih := parseJsonString_roundtrip s rest
    simp only [List.map_cons, List.flatten_cons, List.append_assoc]
    rw [parseJsonString_escChar, ih]

theorem parseEntries_entry (k v : String) (t : List Char) (fuel : Nat) :
    parseEntries (fuel + 1) ('\n' :: (entryJson (k, v) ++ t)) =
      match skipWs t with
      | [] => none
      | c4 :: r6 =>
        if c4 = ',' then
          match parseEntries fuel r6 with
          | some (es, r7) => some ((k, v) :: es, r7)
          | none => none
        else if c4 = rbraceChar then some ([(k, v)], r6)
        else none := by
  simp only [entryJson, escStringJson, List.append_assoc, List.cons_append, List.nil_append]
  simp only [parseEntries, skipWs, List.dropWhile_cons, jsonWs_nl, jsonWs_space, jsonWs_quote,
    jsonWs_colon, Bool.false_eq_true, eq_self_iff_true, if_true, if_false]
  rw [parseJsonString_roundtrip]
  simp only [List.dropWhile_cons, jsonWs_colon, jsonWs_space, jsonWs_quote, Bool.false_eq_true,
    eq_self_iff_true, if_true, if_false]
  rw [parseJsonString_roundtrip]

theorem parseEntries_printed : ∀ (es : List (String × String)) (kv : String × String)
    (fuel : Nat) (rest : List Char),
    parseEntries (es.length + fuel + 1)
      ('\n' :: (entriesJson (kv :: es) ++ ('\n' :: rbraceChar :: rest))) =
      some (kv :: es, rest)
  | [], (k, v), fuel, rest => by
    simp only [entriesJson, List.length_nil, Nat.zero_add]
    rw [parseEntries_entry]
    have hskip : skipWs ('\n' :: rbraceChar :: rest) = rbraceChar :: rest := by
      simp [skipWs, List.dropWhile_cons, jsonWs_nl, jsonWs_rbrace]
    rw [hskip]
    simp
    intro h
    exact absurd h (by decide)
  | e2 :: es2, (k, v), fuel, rest => by
    have ih := parseEntries_printed es2 e2 fuel rest
    have harith : (e2 :: es2).length + fuel + 1 = (es2.length + fuel + 1) + 1 := by
      simp only [List.length_cons]
      omega
    rw [harith]
    simp only [entriesJson, List.append_assoc, List.cons_append, List.nil_append]
    rw [parseEntries_entry]
    have hskip : skipWs
        (',' :: '\n' :: (entriesJson (e2 :: es2) ++ ('\n' :: rbraceChar :: rest))) =
        ',' :: '\n' :: (entriesJson (e2 :: es2) ++ ('\n' :: rbraceChar :: rest)) := by
      simp [skipWs, List.dropWhile_cons, jsonWs_comma]
    rw [hskip]
    simp only [if_true]
    rw [ih]

theorem entriesJson_length_ge : ∀ (kv : String × String) (es : List (String × String)),
    es.length + 1 ≤ (entriesJson (kv :: es)).length
  | kv, [] => by simp [entriesJson, entryJson]
  | kv, e2 :: es2 => by
    have ih := entriesJson_length_ge e2 es2
    have hshape : entriesJson (kv :: e2 :: es2) =
        entryJson kv ++ [',', '\n'] ++ entriesJson (e2 :: es2) := rfl
    rw [hshape]
    simp only [List.length_append, List.length_cons, List.length_nil]
    omega

theorem dataMk (l : List Char) : (String.mk l).data = l := rfl

theorem skipWs_entryJson (kv : String × String) (Z : List Char) :
    skipWs ('\n' :: (entryJson kv ++ Z)) =
      quoteChar :: ((List.map escCharJson kv.1.data).flatten ++
        (quoteChar :: ':' :: ' ' :: quoteChar ::
          ((List.map escCharJson kv.2.data).flatten ++ (quoteChar :: Z)))) := by
  simp only [entryJson, escStringJson, List.append_assoc, List.cons_append, List.nil_append]
  simp only [skipWs, List.dropWhile_cons, jsonWs_nl, jsonWs_space, jsonWs_quote,
    Bool.false_eq_true, eq_self_iff_true, if_true, if_false]

theorem parseTopObject_printed (kv : String × String) (es : List (String × String)) :
    parseTopObject
        (lbraceChar :: '\n' :: (entriesJson (kv :: es) ++ ('\n' :: rbraceChar :: []))) =
      some (kv :: es, []) := by
  obtain ⟨tail, htail⟩ : ∃ tail, entriesJson (kv :: es) = entryJson kv ++ tail := by
    cases es with
    | nil => exact ⟨[], by simp [entriesJson]⟩
    | cons e2 es2 =>
      exact ⟨[',', '\n'] ++ entriesJson (e2 :: es2), by simp [entriesJson, List.append_assoc]⟩
  have hX : skipWs ('\n' :: (entriesJson (kv :: es) ++ ('\n' :: rbraceChar :: []))) =
      quoteChar :: ((List.map escCharJson kv.1.data).flatten ++
        (quoteChar :: ':' :: ' ' :: quoteChar ::
          ((List.map escCharJson kv.2.data).flatten ++
            (quoteChar :: (tail ++ ('\n' :: rbraceChar :: [])))))) := by
    conv_lhs => rw [htail, List.append_assoc]
    exact skipWs_entryJson kv (tail ++ ('\n' :: rbraceChar :: []))
  have hlb : skipWs
      (lbraceChar :: '\n' :: (entriesJson (kv :: es) ++ ('\n' :: rbraceChar :: []))) =
      lbraceChar :: '\n' :: (entriesJson (kv :: es) ++ ('\n' :: rbraceChar :: [])) := by
    simp [skipWs, List.dropWhile_cons, jsonWs_lbrace]
  have hfuel : ('\n' :: (entriesJson (kv :: es) ++ ('\n' :: rbraceChar :: []))).length + 1 =
      es.length +
        (('\n' :: (entriesJson (kv :: es) ++ ('\n' :: rbraceChar :: []))).length - es.length) +
        1 := by
    have h1 := entriesJson_length_ge kv es
    simp only [List.length_cons, List.length_append]
    omega
  have hparse : parseEntries
      (('\n' :: (entriesJson (kv :: es) ++ ('\n' :: rbraceChar :: []))).length + 1)
      ('\n' :: (entriesJson (kv :: es) ++ ('\n' :: rbraceChar :: []))) =
      some (kv :: es, []) := by
    rw [hfuel]
    exact parseEntries_printed es kv _ []
  simp only [parseTopObject, hlb, hX]
  simp only [if_true]
  rw [if_neg (show ¬ quoteChar = rbraceChar by decide)]
  exact hparse

theorem from_str_to_string_pretty (m : List (String × String)) :
    from_str (to_string_pretty m) = some m := by
  cases m with
  | nil => decide
  | cons kv es =>
    show from_str
        (String.mk (lbraceChar :: '\n' :: (entriesJson (kv :: es) ++ ['\n', rbraceChar]))) =
      some (kv :: es)
    simp only [from_str, dataMk, parseTopObject_printed kv es]
    simp [skipWs]

/-! ## Claim theorems -/


/-- C1: for a dispatch of a known shortcut name, the final argument vector
passed to the spawned agent is exactly `defaultArgs ++ perCallArgs ++ [prompt]`
with the stored prompt as the single last argv entry: with no extra raw
arguments the per-call list is empty, and with a `--` separator the per-call
list is exactly the tokens after the first `--`.  In particular raw args
`[name, "--", "--flag"]` give child argv `defaultArgs ++ ["--flag"] ++ [prompt]`
(instantiate `pre := []`, `post := ["--flag"]`). -/
theorem dispatch_final_argv (a0 name agent_str prompt : String)
    (pre post : List String) (aliases : List (String × String))
    (hname : aliases.lookup name = some prompt)
    (ha0 : a0 ≠ "--") (hnm : name ≠ "--") (hpre : "--" ∉ pre) :
    execute_shortcut name (a0 :: name :: []) aliases agent_str =
      .spawn (parse_agent_command agent_str).1
        ((parse_agent_command agent_str).2 ++ [] ++ [prompt]) ∧
    execute_shortcut name (a0 :: name :: (pre ++ "--" :: post)) aliases agent_str =
      .spawn (parse_agent_command agent_str).1
        ((parse_agent_command agent_str).2 ++ post ++ [prompt]) := by
  constructor
  · simp [execute_shortcut, hname]
  · exact execute_shortcut_spawn_of_sep a0 name agent_str prompt pre post aliases hname ha0
      hnm hpre

/-- Witness for C1 at raw args `["foo", "--", "--flag"]` with agent setting
`claude --model x`: the prompt is the single last argv entry. -/
theorem dispatch_final_argv_witness :
    execute_shortcut "foo" ["qwk", "foo", "--", "--flag"] [("foo", "hi there")]
      "claude --model x" = .spawn "claude" ["--model", "x", "--flag", "hi there"] := by
  have h := (dispatch_final_argv "qwk" "foo" "claude --model x" "hi there" [] ["--flag"]
    [("foo", "hi there")] (by decide) (by decide) (by decide) (by decide)).2
  exact h.trans (by decide)

/-- C2: a known shortcut dispatched with extra raw arguments but no literal `--`
anywhere in the argv reports the usage error naming the shortcut, exits with
status 1, and never spawns the agent child. -/
theorem dispatch_usage_error (a0 name agent_str prompt : String) (rest : List String)
    (aliases : List (String × String))
    (hname : aliases.lookup name = some prompt)
    (hrest : rest ≠ []) (hnosep : "--" ∉ a0 :: name :: rest) :
    execute_shortcut name (a0 :: name :: rest) aliases agent_str = .usageError name ∧
    dispatchExitCode (execute_shortcut name (a0 :: name :: rest) aliases agent_str) = some 1 ∧
    spawnsChild (execute_shortcut name (a0 :: name :: rest) aliases agent_str) = false := by
  have hpos : position (fun a => a == "--") (a0 :: name :: rest) = none := by
    refine position_eq_none _ _ fun x hx => ?_
    simp only [beq_eq_false_iff_ne, ne_eq]
    exact fun h => hnosep (h ▸ hx)
  have hlen : 2 < (a0 :: name :: rest).length := by
    cases rest with
    | nil => exact absurd rfl hrest
    | cons b l => simp
  have hres : execute_shortcut name (a0 :: name :: rest) aliases agent_str =
      .usageError name := by
    simp [execute_shortcut, hname, hlen, hpos, hrest]
  exact ⟨hres, by rw [hres]; rfl, by rw [hres]; rfl⟩

/-- Witness for C2 at raw args `["foo", "extra"]`. -/
theorem dispatch_usage_error_witness :
    execute_shortcut "foo" ["qwk", "foo", "extra"] [("foo", "hi")] "claude" =
      .usageError "foo" :=
  (dispatch_usage_error "qwk" "foo" "claude" "hi" ["extra"] [("foo", "hi")]
    (by decide) (by decide) (by decide)).1

/-- C9: with extra tokens between a known shortcut name and the first `--`
separator, no usage error is raised: those tokens are silently discarded and the
child argv is `defaultArgs ++ rest ++ [prompt]` where `rest` is everything after
the first `--`. -/
theorem dispatch_discards_tokens_before_sep (a0 name agent_str prompt : String)
    (extras post : List String) (aliases : List (String × String))
    (hname : aliases.lookup name = some prompt)
    (ha0 : a0 ≠ "--") (hnm : name ≠ "--")
    (_hex : extras ≠ []) (hnoex : "--" ∉ extras) :
    execute_shortcut name (a0 :: name :: (extras ++ "--" :: post)) aliases agent_str =
      .spawn (parse_agent_command agent_str).1
        ((parse_agent_command agent_str).2 ++ post ++ [prompt]) ∧
    spawnsChild
      (execute_shortcut name (a0 :: name :: (extras ++ "--" :: post)) aliases agent_str) =
        true := by
  have h := execute_shortcut_spawn_of_sep a0 name agent_str prompt extras post aliases hname
    ha0 hnm hnoex
  exact ⟨h, by rw [h]; rfl⟩

/-- Witness for C9 at raw args `["foo", "dropped", "--", "--flag"]`: the token
`dropped` vanishes and no usage error occurs. -/
theorem dispatch_discards_tokens_before_sep_witness :
    execute_shortcut "foo" ["qwk", "foo", "dropped", "--", "--flag"] [("foo", "hi")]
      "claude" = .spawn "claude" ["--flag", "hi"] := by
  have h := (dispatch_discards_tokens_before_sep "qwk" "foo" "claude" "hi" ["dropped"]
    ["--flag"] [("foo", "hi")] (by decide) (by decide) (by decide) (by decide) (by decide)).1
  exact h.trans (by decide)

/-- C10: a first raw argument beginning with a single `-` (not `--`), such as
`-h`, takes the direct-shortcut path of `run`, and when no alias of that exact
name exists the outcome is the not-found error with exit status 1. -/
theorem dash_arg_direct_shortcut_path (a0 s : String) (rest : List String)
    (aliases : List (String × String)) (agent_str : String)
    (_h1 : rsStartsWith s "-" = true) (h2 : rsStartsWith s "--" = false)
    (h3 : aliases.lookup s = none) :
    run (a0 :: s :: rest) aliases agent_str = .dispatched (.notFound s) ∧
    dispatchExitCode (.notFound s) = some 1 := by
  constructor
  · simp [run, h2, execute_shortcut, h3]
  · rfl

/-- Witness for C10 at first argument `-h` with an empty alias map. -/
theorem dash_arg_direct_shortcut_path_witness :
    run ["qwk", "-h"] [] "claude" = .dispatched (.notFound "-h") :=
  (dash_arg_direct_shortcut_path "qwk" "-h" [] [] "claude"
    (by decide) (by decide) (by decide)).1

/-- Byte length of a byte-sliced prefix: a successful `byteTake k` returns
characters totalling exactly `k` UTF-8 bytes. -/
theorem utf8Len_byteTake : ∀ (k : Nat) (s pre : List Char),
    byteTake k s = some pre → utf8Len pre = k
  | 0, s, pre, h => by
    simp only [byteTake] at h
    cases h
    rfl
  | k + 1, [], pre, h => by simp [byteTake] at h
  | k + 1, c :: cs, pre, h => by
    simp only [byteTake] at h
    split at h
    case isTrue hsz =>
      cases hcs : byteTake (k + 1 - c.utf8Size) cs with
      | none =>
        rw [hcs] at h
        cases h
      | some pre2 =>
        rw [hcs] at h
        cases h
        have ih := utf8Len_byteTake (k + 1 - c.utf8Size) cs pre2 hcs
        simp only [utf8Len, List.map_cons, List.sum_cons] at ih ⊢
        omega
    case isFalse hsz => cases h

theorem utf8Len_append (a b : List Char) : utf8Len (a ++ b) = utf8Len a + utf8Len b := by
  simp [utf8Len]

/-- C3 fails as stated: at limit 2 on input `abcd` the result is the bare
three-character ellipsis, longer than the limit (the code subtracts 3 with
saturation, so limits below 3 still get the full `...` appended). -/
theorem truncate_prompt_cex :
    truncate_prompt "abcd" 2 = some "..." ∧ ¬ ("..." : String).length ≤ 2 := by decide

/-- C3 amended, at the UTF-8 byte semantics of the code (`len()` and slicing
count bytes): for every limit of at least 3, a whitespace-collapsed input of at
most `n` bytes is returned unchanged; a longer one is truncated to its first
`n - 3` bytes plus `...` — total byte length exactly `n` — whenever byte
position `n - 3` falls on a character boundary, and otherwise the byte slice
panics (modelled `none`).  Every string the function returns has at most `n`
bytes.  (For limits below 3 a truncated result is `...` of byte length 3.) -/
theorem truncate_prompt_spec (s : String) (n : Nat) (hn : 3 ≤ n) :
    (utf8Len (collapseWhitespace s.data) ≤ n →
      truncate_prompt s n = some (String.mk (collapseWhitespace s.data))) ∧
    (n < utf8Len (collapseWhitespace s.data) →
      (∀ r, truncate_prompt s n = some r →
        utf8Len r.data = n ∧ "...".data <:+ r.data) ∧
      (truncate_prompt s n = none ↔
        byteTake (n - 3) (collapseWhitespace s.data) = none)) ∧
    (∀ r, truncate_prompt s n = some r → utf8Len r.data ≤ n) := by
  by_cases h : utf8Len (collapseWhitespace s.data) ≤ n
  · have hres : truncate_prompt s n = some (String.mk (collapseWhitespace s.data)) := by
      simp [truncate_prompt, h]
    refine ⟨fun _ => hres, fun hlt => absurd h (by omega), fun r hr => ?_⟩
    rw [hres] at hr
    cases hr
    exact h
  · push_neg at h
    cases hbt : byteTake (n - 3) (collapseWhitespace s.data) with
    | none =>
      have hres : truncate_prompt s n = none := by
        simp [truncate_prompt, Nat.not_le.mpr h, hbt]
      refine ⟨fun hle => absurd hle (by omega),
        fun _ => ⟨fun r hr => ?_, by simp [hres, hbt]⟩, fun r hr => ?_⟩
      · rw [hres] at hr
        cases hr
      · rw [hres] at hr
        cases hr
    | some pre =>
      have hlenpre := utf8Len_byteTake (n - 3) _ pre hbt
      have hres : truncate_prompt s n = some (String.mk (pre ++ ['.', '.', '.'])) := by
        simp [truncate_prompt, Nat.not_le.mpr h, hbt]
      have hlen : utf8Len (pre ++ ['.', '.', '.']) = n := by
        have h3 : utf8Len ['.', '.', '.'] = 3 := by decide
        rw [utf8Len_append, hlenpre, h3]
        omega
      refine ⟨fun hle => absurd hle (by omega),
        fun _ => ⟨fun r hr => ?_, by simp [hres, hbt]⟩, fun r hr => ?_⟩
      · rw [hres] at hr
        cases hr
        exact ⟨hlen, show ['.', '.', '.'] <:+ pre ++ ['.', '.', '.'] from List.suffix_append _ _⟩
      · rw [hres] at hr
        cases hr
        exact hlen.le

/-- Witness for C3 (amended) at input `Hello world` and limit 5: the collapsed
input has 11 bytes, byte position 2 is a character boundary, and the returned
`He...` has exactly 5 bytes. -/
theorem truncate_prompt_spec_witness : utf8Len (("He..." : String).data) = 5 :=
  (((truncate_prompt_spec "Hello world" 5 (by decide)).2.1 (by decide)).1 "He..."
    (by decide)).1

/-- C4 fails as stated: with aliases `foo`, `--set` and partial input `--s` the
output is not `["--set"]` — the reserved flag `--setup-completion` also has
`--s` as a literal prefix, and the alias `--set` duplicates the reserved flag
`--set`, so the actual output has three entries. -/
theorem completions_cex :
    generate_completions ["foo", "--set"] (some "--s") ≠ ["--set"] := by decide

/-- C4 amended: for a non-empty partial input the completion list is sorted and
its members are exactly the alias names and reserved long flags having the
partial input as a literal prefix (an alias equal to a reserved flag appears
twice); in particular for partial `--s` with aliases `foo`, `--set` the output
is `["--set", "--set", "--setup-completion"]`. -/
theorem completions_spec (aliasKeys : List String) (q : String) (hq : q ≠ "") :
    ((generate_completions aliasKeys (some q)).Sorted (fun a b => rsLe a b = true) ∧
      ∀ x, x ∈ generate_completions aliasKeys (some q) ↔
        (x ∈ aliasKeys ∨ x ∈ completionCommands) ∧ rsStartsWith x q = true) ∧
    generate_completions ["foo", "--set"] (some "--s") =
      ["--set", "--set", "--setup-completion"] := by
  have hq2 : rsIsEmpty q = false := by
    cases q with
    | mk data =>
      cases data with
      | nil => exact absurd rfl hq
      | cons c cs => rfl
  refine ⟨⟨?_, ?_⟩, by decide⟩
  · simp only [generate_completions, hq2, Bool.false_eq_true, if_false]
    exact List.sorted_insertionSort _ _
  · intro x
    simp only [generate_completions, hq2, Bool.false_eq_true, if_false]
    rw [(List.perm_insertionSort _ _).mem_iff]
    simp only [List.mem_filter, List.mem_append]

/-- Witness for C4 (amended), discharging the non-empty-partial hypothesis at
the concrete example. -/
theorem completions_spec_witness :
    generate_completions ["foo", "--set"] (some "--s") =
      ["--set", "--set", "--setup-completion"] :=
  (completions_spec ["foo", "--set"] "--s" (by decide)).2

/-- C5: whenever tokenization of the agent setting fails or yields zero tokens,
`parse_agent_command` falls back to the raw setting string as the program with
no default arguments. -/
theorem parse_agent_command_fallback (s : String)
    (h : shlexSplit s = none ∨ shlexSplit s = some []) :
    parse_agent_command s = (s, []) := by
  rcases h with h | h <;> simp [parse_agent_command, h]

/-- Witness for C5: the empty setting tokenizes to zero tokens and falls back to
program `""` with no arguments. -/
theorem parse_agent_command_fallback_witness :
    shlexSplit "" = some [] ∧ parse_agent_command "" = ("", []) :=
  ⟨by decide, parse_agent_command_fallback "" (Or.inr (by decide))⟩

/-- C7: removing an absent alias leaves the configuration state (and hence the
persisted aliases file) unchanged, reports that the shortcut does not exist, and
exits with status 0. -/
theorem remove_absent_noop (s : ConfigState) (a : String)
    (h : (load_aliases s).lookup a = none) :
    removeCommand s a = (s, .doesNotExist a, 0) := by
  simp [removeCommand, h]

/-- Witness for C7: removing `zzz` from a store holding only `a`. -/
theorem remove_absent_noop_witness :
    removeCommand ⟨some (to_string_pretty [("a", "b")]), some "claude", none⟩ "zzz" =
      (⟨some (to_string_pretty [("a", "b")]), some "claude", none⟩,
        .doesNotExist "zzz", 0) :=
  remove_absent_noop _ "zzz" (by decide)

/-- C8: a confirmed Reset never touches the agent-setting file — `get_agent`
returns the same value before and after — while the alias file is deleted and,
when it existed, its contents were first copied to the backup. -/
theorem reset_preserves_agent (s : ConfigState) :
    (resetCommand s true).agentFile = s.agentFile ∧
    get_agent (resetCommand s true) = get_agent s ∧
    (resetCommand s true).aliasesFile = none ∧
    (s.aliasesFile.isSome = true → (resetCommand s true).backupFile = s.aliasesFile) := by
  cases s with
  | mk af ag bk => cases af <;> simp [resetCommand, create_aliases_backup, get_agent]

/-- C6: saving any alias map and loading it back reproduces exactly the same
keys and values.  The map is modelled as an association list in one `HashMap`
iteration order; the round trip reproduces that very list, so the key/value
sets agree for every iteration and serialization order. -/
theorem load_save_roundtrip (s : ConfigState) (m : List (String × String))
    (_hm : (m.map Prod.fst).Nodup) :
    load_aliases (save_aliases s m) = m := by
  simp [load_aliases, save_aliases, from_str_to_string_pretty]

/-- Witness for C6 on a two-entry map whose values exercise quote, backslash,
newline and control-character escaping. -/
theorem load_save_roundtrip_witness :
    load_aliases (save_aliases ⟨none, none, none⟩
      [("greet", "say \"hi\"\nnow"), ("x", String.mk [backslashChar, Char.ofNat 7, 'z'])]) =
      [("greet", "say \"hi\"\nnow"), ("x", String.mk [backslashChar, Char.ofNat 7, 'z'])] :=
  load_save_roundtrip _ _ (by decide)

/-- Witness for C8 on a state with both files present. -/
theorem reset_preserves_agent_witness :
    (resetCommand ⟨some "X", some "agentcfg", none⟩ true).agentFile = some "agentcfg" ∧
    (resetCommand ⟨some "X", some "agentcfg", none⟩ true).backupFile = some "X" := by
  have h := reset_preserves_agent ⟨some "X", some "agentcfg", none⟩
  exact ⟨h.1, h.2.2.2 (by decide)⟩

end Qwk
